import Mathlib

/-!
Shallow embedding of the FFmpeg decode bridge from src/Plugins/FFmpeg
(plugin.cpp / plugin.h).  The native demuxer and decoder are modelled as
data supplied to the embedded functions: each demuxed packet records its
native stream index and the outcome of the audio decoder on it, and each
elementary stream records whether a decoder was found, whether opening it
succeeded, and the negotiated audio parameters.  Counters instrument the
native calls (av_read_frame invocations, avcodec_decode_audio3
invocations, stream Finish notifications, frees) so that claims about
side effects can be stated.
-/

namespace MDFFmpeg

/-- Value of the FFmpeg constant AVCODEC_MAX_AUDIO_FRAME_SIZE used as the
lower bound on the shared decode buffer size in _Context::Initialize. -/
def AVCODEC_MAX_AUDIO_FRAME_SIZE : Int := 192000

/-- One elementary stream as reported by the opened demuxer, together with
the outcome of the decoder lookup and open attempt that
_Context::Initialize performs on it: codecFound models
avcodec_find_decoder returning non-NULL, openOk models avcodec_open
returning a value that is at least zero, isAudio models codec_type being
AVMEDIA_TYPE_AUDIO, and sampleFmt, sampleRate, channels are the
negotiated decoder parameters read from the codec context. -/
structure AVStreamInfo where
  codecFound : Bool
  openOk : Bool
  isAudio : Bool
  sampleFmt : Int
  sampleRate : Int
  channels : Int
deriving DecidableEq

/-- One ContentDescriptor (the AudioContent object of the source): the
negotiated audio parameters, the Ignore flag the host may set, and the
Data slot holding the most recently decoded byte range of the shared
buffer as a pair of offsets (the source stores the pointer pair Buffer
and Buffer + framesize, modelled as offsets 0 and framesize). -/
structure AudioContent where
  sampleRate : Int
  channels : Int
  format : Int
  ignore : Bool
  data : Option (Int × Int)
deriving DecidableEq

/-- A descriptor built from a supported audio stream, exactly as
_Context::Initialize builds it: gcnew AudioContent(samplerate, channels,
format), with Ignore initially false and no decoded data. -/
def mkAudioContent (s : AVStreamInfo) : AudioContent :=
  { sampleRate := s.sampleRate, channels := s.channels, format := s.sampleFmt,
    ignore := false, data := none }

/-- The condition under which _Context::Initialize records a content slot
for a stream: a decoder was found, opening it succeeded, and the codec
type is audio.  Any other combination leaves the StreamIndexMap entry at
the sentinel -1. -/
def streamSupported (s : AVStreamInfo) : Bool :=
  s.codecFound && s.openOk && s.isAudio

/-- The enumeration loop of _Context::Initialize: walk the streams in
native index order, threading the contents list being built; produce the
final contents list and the StreamIndexMap (the streamcontent array).
For a supported stream the entry is the current contents count and the
descriptor is appended; otherwise the entry is -1. -/
def enumStreams : List AVStreamInfo → List AudioContent → List AudioContent × List Int
  | [], contents => (contents, [])
  | s :: rest, contents =>
    if streamSupported s then
      let r := enumStreams rest (contents ++ [mkAudioContent s])
      (r.1, ((contents.length : Int) :: r.2))
    else
      let r := enumStreams rest contents
      (r.1, ((-1 : Int) :: r.2))

/-- One demuxed packet as delivered by av_read_frame: its native stream
index and the outcome of avcodec_decode_audio3 on it (some n when the
decode succeeds and produces n bytes in the shared buffer, none when the
decode call returns a negative value). -/
structure Packet where
  streamIndex : Nat
  decodeResult : Option Int
deriving DecidableEq

/-- The decode context (_Context): the content table, the StreamIndexMap
(streamcontent), the shared buffer size, the remaining packets the
demuxer will deliver, whether the packet slot has been allocated, and
instrumentation counters for av_read_frame and avcodec_decode_audio3
invocations. -/
structure DecodeContext where
  content : List AudioContent
  streamContent : List Int
  bufferSize : Int
  packets : List Packet
  packetAllocated : Bool
  readCount : Nat
  decodeCount : Nat
deriving DecidableEq

/-- _Context::Initialize: run the enumeration loop starting from an empty
contents list, then set the buffer size to the maximum of the buffersize
accumulator (which the enumeration pass leaves at 0, recording no
per-codec requirement) and AVCODEC_MAX_AUDIO_FRAME_SIZE. -/
def initContext (streams : List AVStreamInfo) (packets : List Packet) :
    DecodeContext :=
  let r := enumStreams streams []
  let buffersize : Int := 0
  let buffersize := max buffersize AVCODEC_MAX_AUDIO_FRAME_SIZE
  { content := r.1, streamContent := r.2, bufferSize := buffersize,
    packets := packets, packetAllocated := false,
    readCount := 0, decodeCount := 0 }

/-- The while loop of _Context::NextFrame.  Arguments: the StreamIndexMap,
the remaining packets, the current value of the by-reference ContentIndex
argument, the content table, and the running read and decode counters.
Returns none exactly when the source would perform an out-of-range
access: the raw streamcontent array read with an index not below its
length (undefined behaviour in the source), or the managed Content array
read with a negative or too-large index (an index exception in the
source).  Otherwise returns the NextFrame result (hasFrame, the final
ContentIndex value, the packets left, the updated content table, and the
final counters).  Reaching the end of the packet list models av_read_frame
returning a negative value, which still counts as one read. -/
def nextFrameLoop (sc : List Int) :
    List Packet → Int → List AudioContent → Nat → Nat →
    Option (Bool × Int × List Packet × List AudioContent × Nat × Nat)
  | [], ci, content, reads, decodes => some (false, ci, [], content, reads + 1, decodes)
  | p :: rest, ci, content, reads, decodes =>
    match sc[p.streamIndex]? with
    | none => none
    | some ci2 =>
      if ci2 = -1 then
        nextFrameLoop sc rest ci2 content (reads + 1) decodes
      else if ci2 < 0 then
        none
      else
        match content[ci2.toNat]? with
        | none => none
        | some c =>
          if c.ignore then
            some (true, ci2, rest, content, reads + 1, decodes)
          else
            match p.decodeResult with
            | some framesize =>
              some (true, ci2, rest,
                content.set ci2.toNat { c with data := some (0, framesize) },
                reads + 1, decodes + 1)
            | none =>
              nextFrameLoop sc rest ci2 content (reads + 1) (decodes + 1)

/-- _Context::NextFrame: allocate (or recycle) the packet slot, then run
the read loop.  The Int argument is the incoming value of the
by-reference ContentIndex parameter, which the loop overwrites on every
mapped packet and which keeps its old value when no packet is read. -/
def nextFrame (ctx : DecodeContext) (ci0 : Int) :
    Option (Bool × Int × DecodeContext) :=
  match nextFrameLoop ctx.streamContent ctx.packets ci0 ctx.content
      ctx.readCount ctx.decodeCount with
  | none => none
  | some (b, ci, rest, content, reads, decodes) =>
    some (b, ci,
      { ctx with
        packets := rest, content := content, packetAllocated := true,
        readCount := reads, decodeCount := decodes })

/-- Observable state of the teardown path of _Context (the destructor and
the finalizer, both funnelling into the finalizer body): the Disposed
flag, whether the packet slot was ever allocated, and counters for each
release action: Finish on the stream via CloseStreamContext, delete[] of
the streamcontent array, av_free of the shared buffer, and the
av_free_packet plus delete of the packet slot. -/
structure DisposeState where
  disposed : Bool
  packetAllocated : Bool
  finishCount : Nat
  streamContentFreeCount : Nat
  bufferFreeCount : Nat
  packetFreeCount : Nat
deriving DecidableEq

/-- The finalizer body of _Context: if the Disposed flag is set, do
nothing; otherwise set it and perform each release action once, freeing
the packet slot only when it was allocated. -/
def dispose (s : DisposeState) : DisposeState :=
  if s.disposed then s
  else
    { s with
      disposed := true,
      finishCount := s.finishCount + 1,
      streamContentFreeCount := s.streamContentFreeCount + 1,
      bufferFreeCount := s.bufferFreeCount + 1,
      packetFreeCount :=
        if s.packetAllocated then s.packetFreeCount + 1 else s.packetFreeCount }

/-- Teardown state of a freshly constructed context: the constructor
clears the Disposed flag, and no release action has run yet. -/
def freshDisposeState (packetAllocated : Bool) : DisposeState :=
  { disposed := false, packetAllocated := packetAllocated,
    finishCount := 0, streamContentFreeCount := 0,
    bufferFreeCount := 0, packetFreeCount := 0 }

/-- Iterated invocation of the teardown path, modelling any interleaving
of the explicit destructor trigger and the finalizer trigger, both of
which run the same gated body. -/
def disposeTimes : Nat → DisposeState → DisposeState
  | 0, s => s
  | n + 1, s => disposeTimes n (dispose s)

/-- Branch outcomes of the known-format open path _Container::Decode:
whether the container has an input format (Input is non-NULL), whether
av_open_input_stream returns 0, and whether av_find_stream_info returns
a non-negative value. -/
structure DecodeEnv where
  hasInputFormat : Bool
  openOk : Bool
  findStreamInfoOk : Bool
deriving DecidableEq

/-- _Container::Decode, instrumented over the whole lifecycle of the
supplied exclusive stream: the Bool is whether a context is returned
(Some versus None) and the Nat counts the Finish notifications the
stream receives, counting the CloseStreamContext calls on the failure
paths inside Decode and, on the success path, the single
CloseStreamContext that the returned context performs when it is later
disposed. -/
def decodeRun (env : DecodeEnv) : Bool × Nat :=
  if !env.hasInputFormat then (false, 0)
  else if !env.openOk then (false, 1)
  else if !env.findStreamInfoOk then (false, 1)
  else (true, 1)

/-- Branch outcomes of the sniffing open path Plugin::_LoadContainer:
whether av_probe_input_buffer returns 0, whether av_open_input_stream
returns 0, and whether av_find_stream_info returns a non-negative
value. -/
structure ProbeEnv where
  probeOk : Bool
  openOk : Bool
  findStreamInfoOk : Bool
deriving DecidableEq

/-- Plugin::_LoadContainer, instrumented the same way as decodeRun: the
Bool is success, the Nat counts Finish notifications over the whole
lifecycle (failure paths close the bridge inside the call; the success
path closes it when the returned context is disposed). -/
def loadContainerRun (env : ProbeEnv) : Bool × Nat :=
  if !env.probeOk then (false, 1)
  else if !env.openOk then (false, 1)
  else if !env.findStreamInfoOk then (false, 1)
  else (true, 1)

/-- One registered container of the _Containers dictionary: its name and
the identity of its input format (none models a NULL Input pointer, as
for a container registered only for output). -/
structure ContainerReg where
  name : String
  inputFormat : Option Nat
deriving DecidableEq

/-- The linear search at the end of Plugin::_LoadContainer: find the
registered container whose Input pointer equals the probed input format,
or none when no registered container matches. -/
def findMatchingContainer (regs : List ContainerReg) (fmt : Nat) :
    Option ContainerReg :=
  regs.find? (fun c => c.inputFormat == some fmt)

/-- Plugin::_LoadContainer as a whole: on any of the three failures the
result is none; on success the result pairs the container found by the
linear search (which the source returns even when the search fails and
the container reference is still null) with the context built by
_Context::Initialize. -/
def loadContainer (regs : List ContainerReg) (env : ProbeEnv) (fmt : Nat)
    (streams : List AVStreamInfo) (packets : List Packet) :
    Option (Option ContainerReg × DecodeContext) :=
  if !env.probeOk then none
  else if !env.openOk then none
  else if !env.findStreamInfoOk then none
  else some (findMatchingContainer regs fmt, initContext streams packets)

/-- A context opened on a container with no elementary streams and no
packets: the demuxer is exhausted from the start. -/
def emptyStreamCtx : DecodeContext := initContext [] []

/-- The context produced by the first NextFrame call on emptyStreamCtx:
that call performs one av_read_frame, sees exhaustion, and returns no
frame. -/
def exhaustedCtx1 : DecodeContext :=
  { emptyStreamCtx with packetAllocated := true, readCount := 1 }

/-- A supported audio stream used as a concrete instance: decoder found,
opened, audio kind, with concrete negotiated parameters. -/
def wStream : AVStreamInfo :=
  { codecFound := true, openOk := true, isAudio := true,
    sampleFmt := 1, sampleRate := 44100, channels := 2 }

/-- An unsupported stream used as a concrete instance: no decoder is
found for its codec identifier. -/
def wBadStream : AVStreamInfo :=
  { codecFound := false, openOk := false, isAudio := false,
    sampleFmt := 0, sampleRate := 0, channels := 0 }

/-- A packet of stream 0 whose audio decode succeeds and produces 4096
bytes in the shared buffer. -/
def wPacketOk : Packet := { streamIndex := 0, decodeResult := some 4096 }

/-- A packet of stream 0 whose audio decode fails. -/
def wPacketFail : Packet := { streamIndex := 0, decodeResult := none }

/-- A concrete context over one supported audio stream whose demuxer
delivers one decodable packet. -/
def wCtx : DecodeContext := initContext [wStream] [wPacketOk]

/-- The context wCtx after its first NextFrame call: the packet was
consumed, the decoded range of 4096 bytes starting at offset 0 was
attached to the only content slot, and one read and one decode were
performed. -/
def wCtxAfter : DecodeContext :=
  { wCtx with
    packets := [], packetAllocated := true,
    content := [{ mkAudioContent wStream with data := some (0, 4096) }],
    readCount := 1, decodeCount := 1 }

/-- A registered container whose input format identity is 5, used as a
concrete instance of the registry. -/
def wReg : ContainerReg := { name := "wav", inputFormat := some 5 }

theorem enumStreams_length (ss : List AVStreamInfo) :
    ∀ acc : List AudioContent, (enumStreams ss acc).2.length = ss.length := by
  induction ss with
  | nil => intro acc; simp [enumStreams]
  | cons s0 rest ih =>
    intro acc
    cases hs0 : streamSupported s0 <;> simp [enumStreams, hs0, ih]

theorem enumStreams_contents (ss : List AVStreamInfo) :
    ∀ acc : List AudioContent,
      (enumStreams ss acc).1 =
        acc ++ (ss.filter streamSupported).map mkAudioContent := by
  induction ss with
  | nil => intro acc; simp [enumStreams]
  | cons s0 rest ih =>
    intro acc
    cases hs0 : streamSupported s0 <;>
      simp [enumStreams, hs0, ih, List.filter_cons]

theorem enumStreams_map_get (ss : List AVStreamInfo) :
    ∀ (acc : List AudioContent) (t : Nat) (s : AVStreamInfo), ss[t]? = some s →
      (enumStreams ss acc).2[t]? =
        some (if streamSupported s then
                ((acc.length + ((ss.take t).filter streamSupported).length : Nat) : Int)
              else -1) := by
  induction ss with
  | nil => intro acc t s h; simp at h
  | cons s0 rest ih =>
    intro acc t s h
    cases t with
    | zero =>
      simp only [List.getElem?_cons_zero, Option.some.injEq] at h
      subst h
      cases hs : streamSupported s0 <;> simp [enumStreams, hs]
    | succ t =>
      simp only [List.getElem?_cons_succ] at h
      cases hs0 : streamSupported s0 with
      | false =>
        have ihr := ih acc t s h
        cases hs : streamSupported s <;>
          simp [enumStreams, hs0, ihr, hs, List.filter_cons]
      | true =>
        have ihr := ih (acc ++ [mkAudioContent s0]) t s h
        cases hs : streamSupported s <;>
          simp [enumStreams, hs0, ihr, hs, List.filter_cons] <;> omega

theorem filter_getElem_take {α : Type} (p : α → Bool) (l : List α) :
    ∀ (t : Nat) (a : α), l[t]? = some a → p a = true →
      (l.filter p)[((l.take t).filter p).length]? = some a := by
  induction l with
  | nil => intro t a h; simp at h
  | cons x rest ih =>
    intro t a h hp
    cases t with
    | zero =>
      simp only [List.getElem?_cons_zero, Option.some.injEq] at h
      subst h
      simp [List.filter_cons, hp]
    | succ t =>
      simp only [List.getElem?_cons_succ] at h
      cases hx : p x <;>
        simp [List.filter_cons, hx, ih t a h hp]

theorem enumStreams_map_mem (ss : List AVStreamInfo) :
    ∀ (acc : List AudioContent) (e : Int), e ∈ (enumStreams ss acc).2 →
      e = -1 ∨ (0 ≤ e ∧
        e < ((acc.length + (ss.filter streamSupported).length : Nat) : Int)) := by
  induction ss with
  | nil => intro acc e h; simp [enumStreams] at h
  | cons s0 rest ih =>
    intro acc e h
    cases hs0 : streamSupported s0 with
    | false =>
      have hlen : ((s0 :: rest).filter streamSupported).length =
          (rest.filter streamSupported).length := by
        simp [List.filter_cons, hs0]
      simp only [enumStreams, hs0, Bool.false_eq_true, if_false,
        List.mem_cons] at h
      rcases h with h | h
      · exact Or.inl h
      · rcases ih acc e h with h1 | h1
        · exact Or.inl h1
        · refine Or.inr ⟨h1.1, ?_⟩
          have h2 := h1.2
          omega
    | true =>
      have hlen : ((s0 :: rest).filter streamSupported).length =
          (rest.filter streamSupported).length + 1 := by
        simp [List.filter_cons, hs0]
      simp only [enumStreams, hs0, if_true, List.mem_cons] at h
      rcases h with h | h
      · subst h
        refine Or.inr ⟨Int.natCast_nonneg _, ?_⟩
        omega
      · rcases ih (acc ++ [mkAudioContent s0]) e h with h1 | h1
        · exact Or.inl h1
        · refine Or.inr ⟨h1.1, ?_⟩
          have h2 := h1.2
          simp only [List.length_append, List.length_cons,
            List.length_nil] at h2
          omega

theorem getElem?_some_lt {α : Type} (l : List α) (n : Nat) (a : α)
    (h : l[n]? = some a) : n < l.length := by
  by_contra hge
  push_neg at hge
  rw [List.getElem?_eq_none hge] at h
  exact Option.noConfusion h

theorem nextFrameLoop_false_drains (sc : List Int) :
    ∀ (ps : List Packet) (ci : Int) (content : List AudioContent)
      (reads decodes : Nat) (ci2 : Int) (rest2 : List Packet)
      (content2 : List AudioContent) (r2 d2 : Nat),
      nextFrameLoop sc ps ci content reads decodes =
        some (false, ci2, rest2, content2, r2, d2) → rest2 = [] := by
  intro ps
  induction ps with
  | nil =>
    intro ci content reads decodes ci2 rest2 content2 r2 d2 h
    simp only [nextFrameLoop, Option.some.injEq, Prod.mk.injEq, true_and] at h
    exact h.2.1.symm
  | cons p ps ih =>
    intro ci content reads decodes ci2 rest2 content2 r2 d2 h
    simp only [nextFrameLoop] at h
    split at h
    · exact Option.noConfusion h
    · split at h
      · exact ih _ _ _ _ _ _ _ _ _ h
      · split at h
        · exact Option.noConfusion h
        · split at h
          · exact Option.noConfusion h
          · split at h
            · simp at h
            · split at h
              · simp at h
              · exact ih _ _ _ _ _ _ _ _ _ h

theorem nextFrameLoop_true_valid (sc : List Int) :
    ∀ (ps : List Packet) (ci : Int) (content : List AudioContent)
      (reads decodes : Nat) (ci2 : Int) (rest2 : List Packet)
      (content2 : List AudioContent) (r2 d2 : Nat),
      nextFrameLoop sc ps ci content reads decodes =
        some (true, ci2, rest2, content2, r2, d2) →
      0 ≤ ci2 ∧ ci2.toNat < content2.length ∧
        content2.length = content.length := by
  intro ps
  induction ps with
  | nil =>
    intro ci content reads decodes ci2 rest2 content2 r2 d2 h
    simp [nextFrameLoop] at h
  | cons p ps ih =>
    intro ci content reads decodes ci2 rest2 content2 r2 d2 h
    simp only [nextFrameLoop] at h
    split at h
    · exact Option.noConfusion h
    · split at h
      · exact ih _ _ _ _ _ _ _ _ _ h
      · split at h
        · exact Option.noConfusion h
        · split at h
          · exact Option.noConfusion h
          · split at h
            · simp only [Option.some.injEq, Prod.mk.injEq, true_and] at h
              obtain ⟨hcv, _, hcont, _, _⟩ := h
              subst hcv
              subst hcont
              refine ⟨by omega, getElem?_some_lt _ _ _ (by assumption), rfl⟩
            · split at h
              · simp only [Option.some.injEq, Prod.mk.injEq, true_and] at h
                obtain ⟨hcv, _, hcont, _, _⟩ := h
                subst hcv
                have hlt := getElem?_some_lt _ _ _
                  (show _ = some _ by assumption)
                constructor
                · omega
                · constructor
                  · rw [← hcont]
                    simpa [List.length_set] using hlt
                  · rw [← hcont]
                    simp [List.length_set]
              · exact ih _ _ _ _ _ _ _ _ _ h

theorem nextFrameLoop_isSome (sc : List Int) (content : List AudioContent)
    (hvalid : ∀ e ∈ sc, e = -1 ∨ (0 ≤ e ∧ e < (content.length : Int))) :
    ∀ (ps : List Packet) (ci : Int) (reads decodes : Nat),
      (∀ p ∈ ps, p.streamIndex < sc.length) →
      (nextFrameLoop sc ps ci content reads decodes).isSome := by
  intro ps
  induction ps with
  | nil => intro ci reads decodes _; simp [nextFrameLoop]
  | cons p ps ih =>
    intro ci reads decodes hb
    have hp : p.streamIndex < sc.length := hb p (List.mem_cons_self p ps)
    have hrest : ∀ q ∈ ps, q.streamIndex < sc.length :=
      fun q hq => hb q (List.mem_cons_of_mem p hq)
    have hcv : sc[p.streamIndex]? = some sc[p.streamIndex] :=
      List.getElem?_eq_getElem hp
    have hmem : sc[p.streamIndex] ∈ sc := List.getElem_mem hp
    simp only [nextFrameLoop, hcv]
    by_cases h1 : sc[p.streamIndex] = -1
    · simp only [if_pos h1]
      exact ih _ (reads + 1) decodes hrest
    · simp only [if_neg h1]
      rcases hvalid _ hmem with hv | hv
      · exact absurd hv h1
      · have hneg : ¬ sc[p.streamIndex] < 0 := by omega
        simp only [if_neg hneg]
        have hlt : (sc[p.streamIndex]).toNat < content.length := by omega
        have hc : content[(sc[p.streamIndex]).toNat]? =
            some content[(sc[p.streamIndex]).toNat] :=
          List.getElem?_eq_getElem hlt
        simp only [hc]
        by_cases hig : content[(sc[p.streamIndex]).toNat].ignore
        · simp only [if_pos hig]
          rfl
        · simp only [if_neg hig]
          cases hd : p.decodeResult with
          | some fs => rfl
          | none => exact ih _ (reads + 1) (decodes + 1) hrest

theorem dispose_disposed (s : DisposeState) : (dispose s).disposed = true := by
  unfold dispose
  split <;> simp_all [dispose]

theorem dispose_of_disposed (s : DisposeState) (h : s.disposed = true) :
    dispose s = s := by
  simp [dispose, h]

theorem dispose_dispose (s : DisposeState) : dispose (dispose s) = dispose s :=
  dispose_of_disposed _ (dispose_disposed s)

theorem disposeTimes_of_disposed (n : Nat) :
    ∀ s : DisposeState, s.disposed = true → disposeTimes n s = s := by
  induction n with
  | zero => intro s _; rfl
  | succ n ih =>
    intro s h
    show disposeTimes n (dispose s) = s
    rw [dispose_of_disposed s h]
    exact ih s h

/-- C2: teardown of a decode context is idempotent: composing dispose
with itself equals dispose on every teardown state, and starting from a
freshly constructed context any number of teardown invocations (from
either trigger, both running the same gated body) performs each release
action - the Finish notification to the stream, the free of the
StreamIndexMap array, the free of the shared decode buffer, and the free
of the held packet when one is allocated - at most once in total. -/
theorem dispose_idempotent_release_once :
    (∀ s : DisposeState, dispose (dispose s) = dispose s) ∧
    (∀ (pa : Bool) (n : Nat),
      (disposeTimes n (freshDisposeState pa)).finishCount ≤ 1 ∧
      (disposeTimes n (freshDisposeState pa)).streamContentFreeCount ≤ 1 ∧
      (disposeTimes n (freshDisposeState pa)).bufferFreeCount ≤ 1 ∧
      (disposeTimes n (freshDisposeState pa)).packetFreeCount ≤ 1) := by
  constructor
  · exact dispose_dispose
  · intro pa n
    cases n with
    | zero => simp [disposeTimes, freshDisposeState]
    | succ n =>
      have h1 : disposeTimes (n + 1) (freshDisposeState pa) =
          dispose (freshDisposeState pa) := by
        show disposeTimes n (dispose (freshDisposeState pa)) = _
        exact disposeTimes_of_disposed n _ (dispose_disposed _)
      rw [h1]
      cases pa <;> simp [dispose, freshDisposeState]

/-- C8: for every opened context, whatever streams the demuxer reports,
the shared decode buffer size equals the maximum of the per-codec
requirement accumulator left by the enumeration pass (which the pass
never raises above its initial 0, recording no per-codec requirement)
and the fixed minimum-frame constant; in particular the capacity is at
least AVCODEC_MAX_AUDIO_FRAME_SIZE. -/
theorem initContext_bufferSize (streams : List AVStreamInfo)
    (packets : List Packet) :
    (initContext streams packets).bufferSize =
      max 0 AVCODEC_MAX_AUDIO_FRAME_SIZE ∧
    AVCODEC_MAX_AUDIO_FRAME_SIZE ≤
      (initContext streams packets).bufferSize :=
  ⟨rfl, le_max_right 0 AVCODEC_MAX_AUDIO_FRAME_SIZE⟩

/-- C3 (code evaluation): on the known-format open path, a container
whose Input format is NULL returns the absent result without the stream
ever receiving its Finish notification, because the early return
precedes creation of the IO bridge - the finish count on that exit path
is 0, not 1.  On every other exit path of the known-format open, and on
every exit path of the sniffing open, Finish is received exactly once
over the lifecycle. -/
theorem decode_finish_counts :
    decodeRun { hasInputFormat := false, openOk := true,
                findStreamInfoOk := true } = (false, 0) ∧
    (∀ env : DecodeEnv,
      (decodeRun env).2 = if env.hasInputFormat then 1 else 0) ∧
    (∀ env : ProbeEnv, (loadContainerRun env).2 = 1) := by
  refine ⟨rfl, ?_, ?_⟩
  · intro env
    rcases env with ⟨a, b, c⟩
    cases a <;> cases b <;> cases c <;> rfl
  · intro env
    rcases env with ⟨a, b, c⟩
    cases a <;> cases b <;> cases c <;> rfl

/-- C1 (counterexample): a context opened on a container that delivers no
packets: the first NextFrame call returns hasFrame = false after one
av_read_frame invocation, which is the Exhausted situation of the claim,
yet the following NextFrame call performs another av_read_frame - the
read counter rises from 1 to 2 - because the source keeps no
terminal-state flag and re-enters the read loop on every call.  This
refutes the part of the claim stating that no further native reads are
performed after exhaustion. -/
theorem nextFrame_exhausted_reads_again :
    nextFrame emptyStreamCtx 0 = some (false, 0, exhaustedCtx1) ∧
    nextFrame exhaustedCtx1 0 =
      some (false, 0, { exhaustedCtx1 with readCount := 2 }) ∧
    exhaustedCtx1.readCount = 1 :=
  ⟨rfl, rfl, rfl⟩

/-- C1 (amended): once a NextFrame call has observed exhaustion (the
packet list is empty), every subsequent call deterministically returns
hasFrame = false, leaves the by-reference ContentIndex argument
unchanged, and leaves the context exhausted - but each such call
performs exactly one further native read, an av_read_frame invocation
that reports exhaustion again, since the source has no terminal-state
flag gating the loop. -/
theorem nextFrame_exhausted_false (ctx : DecodeContext) (ci0 : Int)
    (h : ctx.packets = []) :
    nextFrame ctx ci0 = some (false, ci0,
      { ctx with
        packetAllocated := true,
        readCount := ctx.readCount + 1 }) := by
  rcases ctx with ⟨content, sc, bs, packets, pa, rc, dc⟩
  simp only at h
  subst h
  simp [nextFrame, nextFrameLoop]

/-- C1 (witness): the amended exhaustion theorem applied to the concrete
context opened on an empty container. -/
theorem nextFrame_exhausted_false_witness :
    nextFrame emptyStreamCtx 0 = some (false, 0,
      { emptyStreamCtx with
        packetAllocated := true,
        readCount := emptyStreamCtx.readCount + 1 }) :=
  nextFrame_exhausted_false emptyStreamCtx 0 rfl

/-- C6: context initialization walks the demuxer streams in native index
order; a stream with no decoder, a failed decoder open, or a non-audio
kind gets the sentinel -1 in the StreamIndexMap, while a supported audio
stream gets a fresh ContentDescriptor carrying the negotiated sample
format, sample rate and channel count appended to the content table,
with its table index (the number of supported streams before it)
recorded at the native position; the map length is the stream count. -/
theorem initContext_enumeration (streams : List AVStreamInfo)
    (packets : List Packet) (t : Nat) (s : AVStreamInfo)
    (ht : streams[t]? = some s) :
    (initContext streams packets).streamContent.length =
      streams.length ∧
    (initContext streams packets).content =
      (streams.filter streamSupported).map mkAudioContent ∧
    (streamSupported s = false →
      (initContext streams packets).streamContent[t]? =
        some (-1)) ∧
    (streamSupported s = true →
      (initContext streams packets).streamContent[t]? =
        some ((((streams.take t).filter streamSupported).length : Nat) : Int) ∧
      (initContext streams packets).content[
          ((streams.take t).filter streamSupported).length]? =
        some (mkAudioContent s)) := by
  refine ⟨?_, ?_, ?_, ?_⟩
  · simpa [initContext] using enumStreams_length streams []
  · simpa [initContext] using enumStreams_contents streams []
  · intro hs
    have h1 := enumStreams_map_get streams [] t s ht
    simp only [hs, Bool.false_eq_true, if_false, List.length_nil,
      Nat.zero_add] at h1
    simpa [initContext] using h1
  · intro hs
    constructor
    · have h1 := enumStreams_map_get streams [] t s ht
      simp only [hs, if_true, List.length_nil, Nat.zero_add] at h1
      simpa [initContext] using h1
    · have h2 := filter_getElem_take streamSupported streams t s ht hs
      have hc := enumStreams_contents streams []
      simp only [List.nil_append] at hc
      show (initContext streams packets).content[
          ((streams.take t).filter streamSupported).length]? = _
      simp [initContext, hc, List.getElem?_map, h2]

/-- C6 (witness): the enumeration theorem applied to a concrete stream
table with one unsupported and one supported stream, instantiated at the
supported one. -/
theorem initContext_enumeration_witness :
    (initContext [wBadStream, wStream] []).streamContent[1]? =
      some (((([wBadStream, wStream].take 1).filter
        streamSupported).length : Nat) : Int) ∧
    (initContext [wBadStream, wStream] []).content[
        (([wBadStream, wStream].take 1).filter streamSupported).length]? =
      some (mkAudioContent wStream) :=
  (initContext_enumeration [wBadStream, wStream] [] 1 wStream rfl).2.2.2 rfl

/-- C4: when NextFrame pulls a packet whose StreamIndexMap entry is a
valid content index, an ignored slot makes the call return hasFrame =
true with that index while performing no decode and leaving the content
table untouched, and a non-ignored slot whose audio decode succeeds
makes the call return hasFrame = true with that index after attaching
the byte range of the shared buffer from offset 0 with length the bytes
produced to the Data slot of that descriptor. -/
theorem nextFrame_valid_index (ctx : DecodeContext) (ci0 : Int)
    (p : Packet) (rest : List Packet) (j : Nat) (c : AudioContent)
    (hp : ctx.packets = p :: rest)
    (hmap : ctx.streamContent[p.streamIndex]? = some ((j : Nat) : Int))
    (hc : ctx.content[j]? = some c) :
    (c.ignore = true →
      nextFrame ctx ci0 = some (true, ((j : Nat) : Int),
        { ctx with
          packets := rest, packetAllocated := true,
          readCount := ctx.readCount + 1 })) ∧
    (c.ignore = false → ∀ n : Int, p.decodeResult = some n →
      nextFrame ctx ci0 = some (true, ((j : Nat) : Int),
        { ctx with
          packets := rest, packetAllocated := true,
          content := ctx.content.set j { c with data := some (0, n) },
          readCount := ctx.readCount + 1,
          decodeCount := ctx.decodeCount + 1 })) := by
  rcases ctx with ⟨content, sc, bs, packets, pa, rc, dc⟩
  simp only at hp hmap hc
  subst hp
  have hne : ¬ ((j : Nat) : Int) = -1 := by omega
  have hneg : ¬ ((j : Nat) : Int) < 0 := by omega
  have htn : ((j : Nat) : Int).toNat = j := Int.toNat_natCast j
  constructor
  · intro hig
    simp [nextFrame, nextFrameLoop, hmap, hne, hneg, htn, hc, hig]
  · intro hig n hd
    simp [nextFrame, nextFrameLoop, hmap, hne, hneg, htn, hc, hig, hd]

/-- C4 (witness): the valid-index theorem applied to the concrete
context wCtx whose single packet decodes successfully. -/
theorem nextFrame_valid_index_witness :
    nextFrame wCtx 0 = some (true, ((0 : Nat) : Int),
      { wCtx with
        packets := [], packetAllocated := true,
        content := wCtx.content.set 0
          { mkAudioContent wStream with data := some (0, 4096) },
        readCount := wCtx.readCount + 1,
        decodeCount := wCtx.decodeCount + 1 }) :=
  (nextFrame_valid_index wCtx 0 wPacketOk [] 0 (mkAudioContent wStream)
    rfl rfl rfl).2 rfl 4096 rfl

/-- C5: a packet belonging to a non-ignored audio content slot whose
decode fails is discarded and the read loop simply continues with the
next packet (counting one read and one decode attempt), and NextFrame
reports hasFrame = false only when the demuxer itself is exhausted: any
call returning false leaves no packets. -/
theorem nextFrame_decode_failure_recovered :
    (∀ (sc : List Int) (p : Packet) (rest : List Packet) (ci0 : Int)
       (content : List AudioContent) (reads decodes : Nat) (j : Nat)
       (c : AudioContent),
       sc[p.streamIndex]? = some ((j : Nat) : Int) →
       content[j]? = some c → c.ignore = false → p.decodeResult = none →
       nextFrameLoop sc (p :: rest) ci0 content reads decodes =
         nextFrameLoop sc rest ((j : Nat) : Int) content
           (reads + 1) (decodes + 1)) ∧
    (∀ (ctx : DecodeContext) (ci0 ci : Int) (ctx2 : DecodeContext),
       nextFrame ctx ci0 = some (false, ci, ctx2) → ctx2.packets = []) := by
  constructor
  · intro sc p rest ci0 content reads decodes j c hmap hc hig hd
    have hne : ¬ ((j : Nat) : Int) = -1 := by omega
    have hneg : ¬ ((j : Nat) : Int) < 0 := by omega
    have htn : ((j : Nat) : Int).toNat = j := Int.toNat_natCast j
    simp [nextFrameLoop, hmap, hne, hneg, htn, hc, hig, hd]
  · intro ctx ci0 ci ctx2 h
    unfold nextFrame at h
    cases hl : nextFrameLoop ctx.streamContent ctx.packets ci0 ctx.content
        ctx.readCount ctx.decodeCount with
    | none => rw [hl] at h; exact Option.noConfusion h
    | some r =>
      rw [hl] at h
      obtain ⟨b, ci2, rest2, content2, r2, d2⟩ := r
      simp only [Option.some.injEq, Prod.mk.injEq] at h
      obtain ⟨hb, hci, hctx⟩ := h
      subst hb
      have hrest := nextFrameLoop_false_drains ctx.streamContent
        ctx.packets ci0 ctx.content ctx.readCount ctx.decodeCount
        ci2 rest2 content2 r2 d2 hl
      rw [← hctx]
      simpa using hrest

/-- C5 (witness): the decode-failure theorem applied at a concrete loop
state with one failing packet over one non-ignored audio slot. -/
theorem nextFrame_decode_failure_recovered_witness :
    nextFrameLoop [((0 : Nat) : Int)] [wPacketFail] 0
        [mkAudioContent wStream] 0 0 =
      nextFrameLoop [((0 : Nat) : Int)] [] ((0 : Nat) : Int)
        [mkAudioContent wStream] 1 1 :=
  nextFrame_decode_failure_recovered.1 [((0 : Nat) : Int)] wPacketFail []
    0 [mkAudioContent wStream] 0 0 0 (mkAudioContent wStream)
    rfl rfl rfl rfl

/-- C7: every content index reported by a NextFrame call that returns
hasFrame = true is a valid index into the content table (non-negative
and below the table length, which the call preserves), and a packet
whose StreamIndexMap entry is the sentinel -1 is discarded with no
caller-visible event: the loop just continues on the remaining
packets. -/
theorem nextFrame_contentIndex_valid :
    (∀ (ctx : DecodeContext) (ci0 ci : Int) (ctx2 : DecodeContext),
       nextFrame ctx ci0 = some (true, ci, ctx2) →
       0 ≤ ci ∧ ci.toNat < ctx.content.length ∧
         ctx2.content.length = ctx.content.length) ∧
    (∀ (sc : List Int) (p : Packet) (rest : List Packet) (ci0 : Int)
       (content : List AudioContent) (reads decodes : Nat),
       sc[p.streamIndex]? = some (-1) →
       nextFrameLoop sc (p :: rest) ci0 content reads decodes =
         nextFrameLoop sc rest (-1) content (reads + 1) decodes) := by
  constructor
  · intro ctx ci0 ci ctx2 h
    unfold nextFrame at h
    cases hl : nextFrameLoop ctx.streamContent ctx.packets ci0 ctx.content
        ctx.readCount ctx.decodeCount with
    | none => rw [hl] at h; exact Option.noConfusion h
    | some r =>
      rw [hl] at h
      obtain ⟨b, ci2, rest2, content2, r2, d2⟩ := r
      simp only [Option.some.injEq, Prod.mk.injEq] at h
      obtain ⟨hb, hci, hctx⟩ := h
      subst hb
      subst hci
      have hv := nextFrameLoop_true_valid ctx.streamContent
        ctx.packets ci0 ctx.content ctx.readCount ctx.decodeCount
        ci2 rest2 content2 r2 d2 hl
      refine ⟨hv.1, ?_, ?_⟩
      · have := hv.2.1
        have := hv.2.2
        omega
      · rw [← hctx]
        simpa using hv.2.2
  · intro sc p rest ci0 content reads decodes hmap
    simp [nextFrameLoop, hmap]

/-- C7 (witness): the index-validity theorem applied to the concrete
successful NextFrame call on wCtx, whose reported index is 0. -/
theorem nextFrame_contentIndex_valid_witness :
    0 ≤ (0 : Int) ∧ (0 : Int).toNat < wCtx.content.length ∧
      wCtxAfter.content.length = wCtx.content.length :=
  nextFrame_contentIndex_valid.1 wCtx 0 0 wCtxAfter rfl

/-- C9: a sniffing open in which the probe, the demuxer open and the
stream-info discovery all succeed returns the pair of the container
found by the registry search and the initialized context; when the
matched format is among the registered input formats (as Load guarantees
by registering a container for every input format the library
enumerates), that container association is present (non-null). -/
theorem loadContainer_success_nonnull (regs : List ContainerReg)
    (env : ProbeEnv) (fmt : Nat) (streams : List AVStreamInfo)
    (packets : List Packet)
    (hp : env.probeOk = true) (ho : env.openOk = true)
    (hf : env.findStreamInfoOk = true)
    (hreg : ∃ c ∈ regs, c.inputFormat = some fmt) :
    loadContainer regs env fmt streams packets =
      some (findMatchingContainer regs fmt,
        initContext streams packets) ∧
    (findMatchingContainer regs fmt).isSome := by
  constructor
  · simp [loadContainer, hp, ho, hf]
  · obtain ⟨c0, hc0, hfmt⟩ := hreg
    rw [findMatchingContainer, List.find?_isSome]
    exact ⟨c0, hc0, by simp [hfmt]⟩

/-- C9 (witness): the sniffing-open theorem applied to a registry holding
one container whose input format is the probed format. -/
theorem loadContainer_success_nonnull_witness :
    loadContainer [wReg] { probeOk := true, openOk := true,
                           findStreamInfoOk := true } 5 [wStream] [] =
      some (findMatchingContainer [wReg] 5,
        initContext [wStream] []) ∧
    (findMatchingContainer [wReg] 5).isSome :=
  loadContainer_success_nonnull [wReg]
    { probeOk := true, openOk := true, findStreamInfoOk := true }
    5 [wStream] [] rfl rfl rfl
    ⟨wReg, List.mem_cons_self wReg [], rfl⟩

/-- C10: NextFrame reads the raw StreamIndexMap array with the native
stream index of the pulled packet and no bounds check; for a context
built by initialization (whose map length is the stream count recorded
at open time) the out-of-range branch of the embedding is unreachable
whenever every packet the demuxer delivers carries a stream index below
that stream count, and conversely a delivered packet with an index not
below the map length makes the loop hit the out-of-range branch. -/
theorem streamContent_lookup_inbounds :
    (∀ (streams : List AVStreamInfo) (packets : List Packet) (ci0 : Int),
       (∀ p ∈ packets, p.streamIndex < streams.length) →
       (nextFrame (initContext streams packets) ci0).isSome) ∧
    (∀ (sc : List Int) (p : Packet) (rest : List Packet) (ci0 : Int)
       (content : List AudioContent) (reads decodes : Nat),
       sc.length ≤ p.streamIndex →
       nextFrameLoop sc (p :: rest) ci0 content reads decodes = none) := by
  constructor
  · intro streams packets ci0 hb
    have hlen : (initContext streams packets).streamContent.length =
        streams.length := by
      simpa [initContext] using enumStreams_length streams []
    have hclen : (initContext streams packets).content.length =
        (streams.filter streamSupported).length := by
      have := enumStreams_contents streams []
      simp [initContext, this]
    have hvalid : ∀ e ∈ (initContext streams packets).streamContent,
        e = -1 ∨ (0 ≤ e ∧
          e < ((initContext streams packets).content.length : Int)) := by
      intro e he
      have hm : e ∈ (enumStreams streams []).2 := by
        simpa [initContext] using he
      rcases enumStreams_map_mem streams [] e hm with h1 | h1
      · exact Or.inl h1
      · refine Or.inr ⟨h1.1, ?_⟩
        have h2 := h1.2
        simp only [List.length_nil, Nat.zero_add] at h2
        omega
    have hb2 : ∀ p ∈ packets,
        p.streamIndex < (initContext streams packets).streamContent.length := by
      intro p hp
      rw [hlen]
      exact hb p hp
    have hl := nextFrameLoop_isSome
      (initContext streams packets).streamContent
      (initContext streams packets).content hvalid
      (initContext streams packets).packets ci0
      (initContext streams packets).readCount
      (initContext streams packets).decodeCount hb2
    unfold nextFrame
    cases hres : nextFrameLoop (initContext streams packets).streamContent
        (initContext streams packets).packets ci0
        (initContext streams packets).content
        (initContext streams packets).readCount
        (initContext streams packets).decodeCount with
    | none =>
      rw [hres] at hl
      simp at hl
    | some r =>
      obtain ⟨b, ci2, rest2, content2, r2, d2⟩ := r
      rfl
  · intro sc p rest ci0 content reads decodes hle
    simp [nextFrameLoop, List.getElem?_eq_none hle]

/-- C10 (witness): the in-bounds theorem applied to the concrete context
wCtx, whose only packet carries stream index 0 below the stream count
1. -/
theorem streamContent_lookup_inbounds_witness :
    (nextFrame (initContext [wStream] [wPacketOk]) 0).isSome :=
  streamContent_lookup_inbounds.1 [wStream] [wPacketOk] 0 (by decide)

end MDFFmpeg
